import Mathlib

/-
Verification of rust-gitgrep (src/main.rs) against its natural-language
specification.  The Rust program is shallowly embedded: machine bytes are
Nat (< 256), usize arithmetic is explicit modulo 2^64, git object ids are
Nat, the object store is an explicit finite table, HashSet / HashMap are
association lists, and every fallible or panicking operation returns an
Option (none = error / panic).  Loops that are unbounded in the source
(the BFS loop over commit generations, the recursive tree descent, the
regex scan loop) take an explicit fuel parameter; all stated properties
are proved for every fuel, and the concrete evaluations supply enough
fuel for the whole input.
-/

namespace Gitgrep

/-- Git object id (`git2::Oid`), modeled as a natural number. -/
abbrev Oid := Nat

/-- A file path relative to the repository root (`PathBuf`), modeled as the
list of its components; `path.join(name)` is `path ++ [name]`. -/
abbrev GPath := List String

/-- Bytes of an ASCII string literal, used to build concrete inputs
(each fixture below is pure ASCII, where char code = byte). -/
def asciiB (s : String) : List Nat := s.data.map Char.toNat

/-- `usize::MAX + 1`. -/
def USIZE : Nat := 2 ^ 64

/-- `(i as isize - 1) as usize` for `0 <= i < 2^63`: wraps to `2^64 - 1`
when `i = 0` (this cast appears in `process_file`, main.rs line 308). -/
def isizeToUsizeSub1 (i : Nat) : Nat := (i + (USIZE - 1)) % USIZE

/-- The `Settings` record of main.rs (lines 74-85).  The compiled regex
`pattern` is modeled as a literal byte pattern (the fixtures only use
literal patterns, for which `Regex::find_iter` is leftmost non-overlapping
substring search).  `HashSet<OsString>` becomes a list of strings. -/
structure Settings where
  pattern : List Nat
  branch : Option String
  once_file : Bool
  color_code : Bool
  output_grouping : Bool
  verbose : Bool
  extensions : List String
  ignore_dirs : List String

/-- Default extension list from `TryFrom<Opt> for Settings` (main.rs lines
93-96), after the `ext[1..]` strip of the leading dot. -/
def defaultExtensions : List String :=
  ["sh", "js", "tcl", "pl", "py", "rb", "c", "cpp", "h", "rc", "rci", "dlg",
   "pas", "dpr", "cs", "rs"]

/-- Default ignored directory names (main.rs line 97). -/
def defaultIgnoreDirs : List String :=
  [".hg", ".svn", ".git", ".bzr", "node_modules", "target"]

/-- Settings as produced by the default CLI conversion, with a given
pattern and `once_file` flag; output grouping is disabled (the
`-g` flag) so that printed lines carry the commit id. -/
def mkSettings (pat : List Nat) (once : Bool) : Settings :=
  { pattern := pat, branch := none, once_file := once, color_code := true,
    output_grouping := false, verbose := false,
    extensions := defaultExtensions, ignore_dirs := defaultIgnoreDirs }

/-- A UTF-8 continuation byte (`10xxxxxx`). -/
def isCont (b : Nat) : Bool := decide (128 ≤ b) && decide (b < 192)

/-- Validity of a byte sequence as UTF-8, exactly the condition under which
`std::str::from_utf8` succeeds (main.rs line 282): ASCII, or a well-formed
2/3/4-byte sequence excluding overlongs, surrogates and values past
U+10FFFF. -/
def validUtf8 : List Nat → Bool
  | [] => true
  | b :: rest =>
    if decide (b < 128) then validUtf8 rest
    else if decide (194 ≤ b) && decide (b ≤ 223) then
      match rest with
      | c1 :: rest2 => isCont c1 && validUtf8 rest2
      | [] => false
    else if decide (b = 224) then
      match rest with
      | c1 :: c2 :: rest2 =>
        decide (160 ≤ c1) && decide (c1 < 192) && isCont c2 && validUtf8 rest2
      | _ => false
    else if decide (225 ≤ b) && decide (b ≤ 236) then
      match rest with
      | c1 :: c2 :: rest2 => isCont c1 && isCont c2 && validUtf8 rest2
      | _ => false
    else if decide (b = 237) then
      match rest with
      | c1 :: c2 :: rest2 =>
        decide (128 ≤ c1) && decide (c1 < 160) && isCont c2 && validUtf8 rest2
      | _ => false
    else if decide (238 ≤ b) && decide (b ≤ 239) then
      match rest with
      | c1 :: c2 :: rest2 => isCont c1 && isCont c2 && validUtf8 rest2
      | _ => false
    else if decide (b = 240) then
      match rest with
      | c1 :: c2 :: c3 :: rest2 =>
        decide (144 ≤ c1) && decide (c1 < 192) && isCont c2 && isCont c3 &&
          validUtf8 rest2
      | _ => false
    else if decide (241 ≤ b) && decide (b ≤ 243) then
      match rest with
      | c1 :: c2 :: c3 :: rest2 =>
        isCont c1 && isCont c2 && isCont c3 && validUtf8 rest2
      | _ => false
    else if decide (b = 244) then
      match rest with
      | c1 :: c2 :: c3 :: rest2 =>
        decide (128 ≤ c1) && decide (c1 < 144) && isCont c2 && isCont c3 &&
          validUtf8 rest2
      | _ => false
    else false

/-- Does the literal pattern occur in `text` at byte offset `i`? -/
def matchAt (pat text : List Nat) (i : Nat) : Bool :=
  decide ((text.drop i).take pat.length = pat)

/-- Leftmost occurrence of `pat` in `text` at offset `p` or later (the
search step of `Regex::find_iter` for a literal pattern).  The fuel
`text.length + 1 - p` covers every candidate offset `p, ..., text.length`. -/
def findFromAux (pat text : List Nat) : Nat → Nat → Option Nat
  | 0, _ => none
  | fuel + 1, p =>
    if decide (text.length < p) then none
    else if matchAt pat text p then some p
    else findFromAux pat text fuel (p + 1)

def findFrom (pat text : List Nat) (p : Nat) : Option Nat :=
  findFromAux pat text (text.length + 1 - p) p

/-- All matches of `findIter` starting at offset `p`, left to right and
non-overlapping: after a match at `q` the search resumes at
`q + pat.length` (one past an empty match, mirroring the regex engine's
advancement).  `text.length + 1` rounds of fuel suffice for every pattern. -/
def findIterAux (pat text : List Nat) : Nat → Nat → List (Nat × Nat)
  | 0, _ => []
  | fuel + 1, p =>
    match findFrom pat text p with
    | none => []
    | some q => (q, q + pat.length) :: findIterAux pat text fuel (q + max pat.length 1)

/-- `settings.pattern.find_iter(&input_str)` (main.rs line 288) for a
literal pattern: the list of `(start, end)` byte spans of all
non-overlapping matches, leftmost first. -/
def findIter (pat text : List Nat) : List (Nat × Nat) :=
  findIterAux pat text (text.length + 1) 0

/-- The line-counting loop of `process_file` (main.rs lines 298-312),
scanning `(i, c)` pairs with the running `line_number`, `line_start`,
`line_end`; a newline with `found.end() <= i` computes
`line_end = ((i as isize - 1) as usize).max(line_start)` and breaks. -/
def lineScan (mstart mend len : Nat) :
    List (Nat × Nat) → Nat → Nat → Nat → Nat × Nat × Nat
  | [], ln, ls, le => (ln, ls, le)
  | (i, c) :: rest, ln, ls, le =>
    if decide (c = 10) then
      let ln2 := ln + 1
      let ls2 := if decide (i < mstart) then min (i + 1) len else ls
      if decide (mend ≤ i) then (ln2, ls2, max (isizeToUsizeSub1 i) ls2)
      else lineScan mstart mend len rest ln2 ls2 le
    else lineScan mstart mend len rest ln ls le

/-- `(line_number, line_start, line_end)` computed by `process_file` for a
match spanning bytes `[mstart, mend)` of `input`. -/
def lineInfo (input : List Nat) (mstart mend : Nat) : Nat × Nat × Nat :=
  lineScan mstart mend input.length input.enum 1 0 0

/-- Is byte offset `i` a char boundary of the UTF-8 string `input`
(offset at end, or at a byte that is not a continuation byte)? -/
def isCharBoundary (input : List Nat) (i : Nat) : Bool :=
  if decide (i = input.length) then true
  else
    match input.get? i with
    | some b => !(decide (128 ≤ b) && decide (b < 192))
    | none => false

/-- `&input_str[a..b]` (main.rs lines 323 and 339): `none` models the
panic raised when `a > b`, `b > len`, or either offset is not a char
boundary. -/
def strSlice (input : List Nat) (a b : Nat) : Option (List Nat) :=
  if decide (a ≤ b) && decide (b ≤ input.length) &&
      isCharBoundary input a && isCharBoundary input b then
    some ((input.drop a).take (b - a))
  else none

/-- The `MatchEntry` record of main.rs (lines 66-72); `end_` is the
source's `end` field. -/
structure MatchEntry where
  commit : Oid
  path : GPath
  start : Nat
  end_ : Nat
deriving DecidableEq, Repr

/-- One item of standard output: the `commit ...:` group header, or one
match line `path(line_number): text`, carrying the commit id when output
grouping is off.  Color decoration (the only difference between the two
print branches of main.rs lines 314-346) is abstracted away. -/
inductive OutItem
  | commitHeader (c : Oid)
  | matchLine (commitShown : Option Oid) (path : GPath) (lineNumber : Nat)
      (text : List Nat)
deriving DecidableEq, Repr

/-- The per-match tail of the `for found in ...` loop of `process_file`:
record the match, compute the line span, print (possibly panicking on the
slice), threading the `visited` group flag.  `none` models a panic. -/
def processFileGo (s : Settings) (commitId : Oid) (input : List Nat)
    (filepath : GPath) :
    List (Nat × Nat) → List MatchEntry → List OutItem → Bool →
    Option (List MatchEntry × List OutItem × Bool)
  | [], ms, out, visited => some (ms, out, visited)
  | (mstart, mend) :: rest, ms, out, visited =>
    let entry : MatchEntry :=
      { commit := commitId, path := filepath, start := mstart, end_ := mend }
    let info := lineInfo input mstart mend
    match strSlice input info.2.1 info.2.2 with
    | none => none
    | some text =>
      let headed : List OutItem × Bool :=
        if s.output_grouping && !visited then
          (out ++ [OutItem.commitHeader commitId], true)
        else (out, visited)
      let shown : Option Oid := if s.output_grouping then none else some commitId
      processFileGo s commitId input filepath rest (ms ++ [entry])
        (headed.1 ++ [OutItem.matchLine shown filepath info.1 text]) headed.2

/-- `process_file` (main.rs lines 272-350): reject non-UTF-8 input
wholesale, otherwise iterate over all pattern matches, returning the
emitted `MatchEntry` records, the printed output, and the updated
`visited` flag; `none` models a panic while printing. -/
def processFile (s : Settings) (commitId : Oid) (input : List Nat)
    (filepath : GPath) (visited : Bool) :
    Option (List MatchEntry × List OutItem × Bool) :=
  if validUtf8 input then
    processFileGo s commitId input filepath (findIter s.pattern input) [] [] visited
  else some ([], [], visited)

/-- Follows the spec's words (section 4.2 / section 8), for comparison with
the code: the reported line number is the count of newline bytes strictly
preceding the match start, plus one. -/
def specLineNumber (input : List Nat) (mstart : Nat) : Nat :=
  ((input.take mstart).filter (fun b => b == 10)).length + 1

/-- Follows the spec's words: the line's text starts at the byte after the
last newline strictly before the match start, or at the buffer start. -/
def specLineStart (input : List Nat) (mstart : Nat) : Nat :=
  (List.range mstart).foldl
    (fun acc i => if input.get? i == some 10 then i + 1 else acc) 0

/-- Follows the spec's words: the line's text ends just before the first
newline at or after the match end, or at the buffer end. -/
def specLineEnd (input : List Nat) (mend : Nat) : Nat :=
  (((List.range input.length).filter
      (fun i => decide (mend ≤ i) && (input.get? i == some 10))).head?).getD
    input.length

/-- Follows the spec's words: the displayed text of the line containing the
match. -/
def specLineText (input : List Nat) (mstart mend : Nat) : List Nat :=
  (input.drop (specLineStart input mstart)).take
    (specLineEnd input mend - specLineStart input mstart)

/-- `git2::ObjectType` as recorded in a tree entry's mode
(`entry.kind()` in main.rs line 176 may differ from the kind of the
object the id resolves to). -/
inductive ObjectType
  | commit
  | tree
  | blob
  | tag
deriving DecidableEq, Repr

/-- One entry of a git tree: `entry.name()` is `none` for non-UTF-8 names,
`oid` is the entry's object id, `kind` its recorded object type. -/
structure TreeEntry where
  name : Option String
  oid : Oid
  kind : Option ObjectType
deriving DecidableEq, Repr

/-- A git tree object (directory snapshot). -/
structure Tree where
  id : Oid
  entries : List TreeEntry
deriving DecidableEq, Repr

/-- A git blob object (file content); `binary` models `blob.is_binary()`. -/
structure Blob where
  id : Oid
  binary : Bool
  content : List Nat
deriving DecidableEq, Repr

/-- A git commit object; `treeId` is `none` when `commit.tree()` fails. -/
structure CommitObj where
  id : Oid
  parentIds : List Oid
  treeId : Option Oid
deriving DecidableEq, Repr

/-- The repository object store: finite tables of trees, blobs and
commits, the named references, and `HEAD`. -/
structure Repo where
  trees : List Tree
  blobs : List Blob
  commits : List CommitObj
  refs : List (String × Oid)
  headRef : Option Oid
deriving Repr

def lookupTree (r : Repo) (i : Oid) : Option Tree :=
  r.trees.find? (fun t => t.id == i)

def lookupBlob (r : Repo) (i : Oid) : Option Blob :=
  r.blobs.find? (fun b => b.id == i)

/-- `repo.find_commit(id)` (main.rs line 251). -/
def findCommit (r : Repo) (i : Oid) : Option CommitObj :=
  r.commits.find? (fun c => c.id == i)

/-- `repo.resolve_reference_from_short_name(branch)` (main.rs line 212),
resolved down to a commit id. -/
def lookupRef (r : Repo) (name : String) : Option Oid :=
  (r.refs.find? (fun p => p.1 == name)).map (fun p => p.2)

/-- `commit.tree()` (main.rs line 238): resolve the commit's root tree. -/
def commitTree (r : Repo) (c : CommitObj) : Option Tree :=
  c.treeId.bind (lookupTree r)

/-- A resolved git object, as returned by `entry.to_object` (main.rs
line 165). -/
inductive Obj
  | treeObj (t : Tree)
  | blobObj (b : Blob)
deriving Repr

/-- `entry.to_object(&self.repo)`: resolve the entry's id in the object
store; `none` models the `Err` branch (logged and skipped). -/
def entryToObject (r : Repo) (e : TreeEntry) : Option Obj :=
  match lookupTree r e.oid with
  | some t => some (Obj.treeObj t)
  | none =>
    match lookupBlob r e.oid with
    | some b => some (Obj.blobObj b)
    | none => none

/-- `obj.peel_to_blob().ok()` (main.rs line 182): succeeds only on blobs. -/
def peelToBlob : Obj → Option Blob
  | Obj.blobObj b => some b
  | Obj.treeObj _ => none

/-- ASCII lower-casing of one character (`to_ascii_lowercase`). -/
def lowerChar (c : Char) : Char :=
  if decide ('A' ≤ c) && decide (c ≤ 'Z') then Char.ofNat (c.toNat + 32) else c

/-- `OsStr::to_ascii_lowercase` on a file name or extension. -/
def lowerStr (s : String) : String := String.mk (s.data.map lowerChar)

/-- After the first character of a file name: the suffix following the
last dot, if any dot occurs. -/
def extAfterLast : List Char → Option (List Char)
  | [] => none
  | c :: rest =>
    if decide (c = '.') then
      match extAfterLast rest with
      | some e => some e
      | none => some rest
    else extAfterLast rest

/-- `PathBuf::from(name).extension()` (main.rs line 186) for a plain file
name: the portion after the last dot, where a dot in first position does
not delimit an extension (so ".gitignore" has none). -/
def extension (name : String) : Option String :=
  match name.data with
  | [] => none
  | _ :: rest => (extAfterLast rest).map (fun e => String.mk e)

/-- `HashSet::insert`: add the element if it is not already present. -/
def hsInsert {α : Type} [DecidableEq α] (x : α) (l : List α) : List α :=
  if x ∈ l then l else x :: l

/-- The mutable fields of `ProcessTree` (main.rs lines 135-144), plus the
stream of printed output and two observation logs recording, most recent
first, the trees expanded past the dedup guard (main.rs line 151, where
`walked` is incremented) and the blob ids handed to `process_file`
(main.rs line 197).  The logs duplicate information that the source makes
observable through `walked`, `skipped_blobs` and the printed stream; they
let the dedup invariants be stated as properties of the call trace. -/
structure PTState where
  checked_paths : List GPath
  checked_blobs : List Oid
  checked_trees : List Oid
  walked : Nat
  skipped_blobs : Nat
  all_matches : List MatchEntry
  output : List OutItem
  treeLog : List Oid
  scanLog : List Oid
deriving Repr

def PTState.init : PTState :=
  { checked_paths := [], checked_blobs := [], checked_trees := [],
    walked := 0, skipped_blobs := 0, all_matches := [], output := [],
    treeLog := [], scanLog := [] }

/-- The tail of the per-entry closure once a blob has passed every filter
(main.rs lines 191-198): skip an already-checked blob id (counting it),
otherwise record the id and scan the content with `process_file`.
`none` models a panic inside `process_file`. -/
def scanBlobStep (s : Settings) (cid : Oid) (entry_path : GPath) (blob : Blob)
    (st : PTState) (v : Bool) : Option (PTState × Bool) :=
  if blob.id ∈ st.checked_blobs then
    some ({ st with skipped_blobs := st.skipped_blobs + 1 }, v)
  else
    match processFile s cid blob.content entry_path v with
    | none => none
    | some (ms, out, v2) =>
      some ({ st with checked_blobs := hsInsert blob.id st.checked_blobs,
                      scanLog := blob.id :: st.scanLog,
                      all_matches := st.all_matches ++ ms,
                      output := st.output ++ out }, v2)

/-- The filter chain of the per-entry closure for a non-tree object
(main.rs lines 176-189): entry kind must be `Blob` and the name must not
be in the ignore set (note: this is the only place `ignore_dirs` is
consulted), the object must peel to a non-binary blob, and the
lower-cased extension must be in the configured set. -/
def classifyBlob (s : Settings) (name : String) (e : TreeEntry) (obj : Obj) :
    Option Blob :=
  if e.kind ≠ some ObjectType.blob ∨ name ∈ s.ignore_dirs then none
  else
    match peelToBlob obj with
    | none => none
    | some blob =>
      if blob.binary then none
      else
        match extension name with
        | none => none
        | some ext =>
          if lowerStr ext ∈ s.extensions then some blob else none

/-- `self.checked_paths.insert(entry_path.clone())` (main.rs line 163). -/
def markPath (entry_path : GPath) (st : PTState) : PTState :=
  { st with checked_paths := hsInsert entry_path st.checked_paths }

/-- The per-entry closure of `ProcessTree::process` (main.rs lines
155-199), parameterized by the recursive call `rec` used on sub-trees.
A skipped entry leaves the state as accumulated so far (`return None` in
the source only abandons the entry, not the mutations already made). -/
def entryStep (s : Settings) (r : Repo)
    (rec : Tree → Oid → GPath → PTState → Bool → Option (PTState × Bool))
    (e : TreeEntry) (cid : Oid) (path : GPath) (st : PTState) (v : Bool) :
    Option (PTState × Bool) :=
  match e.name with
  | none => some (st, v)
  | some name =>
    if s.once_file = true ∧ path ++ [name] ∈ st.checked_paths then some (st, v)
    else
      match entryToObject r e with
      | none => some (markPath (path ++ [name]) st, v)
      | some (Obj.treeObj t) =>
        rec t cid (path ++ [name]) (markPath (path ++ [name]) st) v
      | some obj =>
        match classifyBlob s name e obj with
        | none => some (markPath (path ++ [name]) st, v)
        | some blob =>
          scanBlobStep s cid (path ++ [name]) blob (markPath (path ++ [name]) st) v

/-- Recording a previously unseen tree before expanding it (main.rs
lines 151-152). -/
def markTree (tid : Oid) (st : PTState) : PTState :=
  { st with checked_trees := hsInsert tid st.checked_trees,
            walked := st.walked + 1, treeLog := tid :: st.treeLog }

/-- The `for entry in tree` loop of `ProcessTree::process`, folding
`entryStep` over the entries. -/
def goEntries (s : Settings) (r : Repo)
    (rec : Tree → Oid → GPath → PTState → Bool → Option (PTState × Bool)) :
    List TreeEntry → Oid → GPath → PTState → Bool → Option (PTState × Bool)
  | [], _, _, st, v => some (st, v)
  | e :: rest, cid, path, st, v =>
    match entryStep s r rec e cid path st v with
    | none => none
    | some (st2, v2) => goEntries s r rec rest cid path st2 v2

/-- `ProcessTree::process` (main.rs lines 147-206): return immediately for
an already-checked tree id, otherwise record the tree and walk its
entries.  `fuel` bounds the recursion depth (the source recursion is
bounded by the number of distinct trees, since every descent first
records a previously unseen tree id). -/
def process (s : Settings) (r : Repo) :
    Nat → Tree → Oid → GPath → PTState → Bool → Option (PTState × Bool)
  | 0, _, _, _, st, v => some (st, v)
  | fuel + 1, tree, cid, path, st, v =>
    if tree.id ∈ st.checked_trees then some (st, v)
    else
      goEntries s r (process s r fuel) tree.entries cid path (markTree tree.id st) v

/-- `HashMap::contains_key` on the `checked_commits` map. -/
def mapContains (m : List (Oid × Bool)) (k : Oid) : Bool :=
  m.any (fun p => p.1 == k)

/-- `checked_commits.entry(k).or_insert(v)` (main.rs line 236). -/
def mapInsert (m : List (Oid × Bool)) (k : Oid) (v : Bool) :
    List (Oid × Bool) :=
  if mapContains m k then m else (k, v) :: m

/-- Writing back through the `&mut bool` handed to `process`. -/
def mapSet (m : List (Oid × Bool)) (k : Oid) (v : Bool) :
    List (Oid × Bool) :=
  m.map (fun p => if p.1 == k then (k, v) else p)

/-- The run state owned by `process_files_git`: the walker state, the
`checked_commits` map, and an observation log (most recent first) of the
owning commit of each `process_tree.process` invocation (main.rs
line 244). -/
structure RunState where
  pt : PTState
  checked_commits : List (Oid × Bool)
  visitLog : List Oid
deriving Repr

def RunState.init : RunState :=
  { pt := PTState.init, checked_commits := [], visitLog := [] }

/-- Fuel for the tree recursion: the number of distinct trees is bounded
by the table size. -/
def treeFuel (r : Repo) : Nat := r.trees.length + 1

/-- The body of `for commit in &next_refs` (main.rs lines 232-245): skip
an already-checked commit; otherwise insert it into `checked_commits`
(before the tree is resolved), skip silently when the root tree does not
resolve, and otherwise run the snapshot walker over it.  `none` models a
panic inside the walker. -/
def visitCommitStep (s : Settings) (r : Repo) (fuel : Nat) (st : RunState)
    (c : CommitObj) : Option RunState :=
  if mapContains st.checked_commits c.id then some st
  else
    match commitTree r c with
    | none =>
      some { st with checked_commits := mapInsert st.checked_commits c.id false }
    | some tree =>
      match process s r fuel tree c.id [] st.pt false with
      | none => none
      | some (pt2, v2) =>
        some { pt := pt2,
               checked_commits := mapSet (mapInsert st.checked_commits c.id false) c.id v2,
               visitLog := c.id :: st.visitLog }

/-- One breadth-first level: fold `visitCommitStep` over the frontier. -/
def visitLevel (s : Settings) (r : Repo) (fuel : Nat) :
    List CommitObj → RunState → Option RunState
  | [], st => some st
  | c :: rest, st =>
    match visitCommitStep s r fuel st c with
    | none => none
    | some st2 => visitLevel s r fuel rest st2

/-- `ids.map(find_commit).collect::<Result<Vec<_>, _>>()`: `none` as soon
as any id fails to load (main.rs lines 251-252). -/
def collectCommits (r : Repo) : List Oid → Option (List CommitObj)
  | [] => some []
  | i :: rest =>
    match findCommit r i with
    | none => none
    | some c =>
      match collectCommits r rest with
      | none => none
      | some cs => some (c :: cs)

/-- The computation of the next frontier (main.rs lines 246-252): all
parent ids of the current frontier, minus already-checked commits, each
loaded from the store; `none` models the fatal `?` on the collect. -/
def nextLevel (r : Repo) (refs : List CommitObj) (cc : List (Oid × Bool)) :
    Option (List CommitObj) :=
  collectCommits r
    (((refs.map (fun c => c.parentIds)).flatten).filter
      (fun i => !(mapContains cc i)))

/-- Errors terminating `process_files_git`: a reference that does not
resolve, a head that does not peel to a commit, a commit that cannot be
loaded while enumerating parents, or a panic inside the walker. -/
inductive RunError
  | refErr
  | peelErr
  | findCommitErr
  | panicked
deriving DecidableEq, Repr

/-- The `loop` of `process_files_git` (main.rs lines 231-268): process the
current frontier, compute the next one (fatally failing if a parent
cannot be loaded), stop when it is empty.  `fuel` bounds the number of
levels; the final `RunState` is returned alongside the result (on an
error it is the last fully-processed state).  The verbose diagnostics on
stderr are not modeled. -/
def bfsLoop (s : Settings) (r : Repo) :
    Nat → List CommitObj → RunState →
    Except RunError (List MatchEntry) × RunState
  | 0, _, st => (Except.ok st.pt.all_matches, st)
  | fuel + 1, next_refs, st =>
    match visitLevel s r (treeFuel r) next_refs st with
    | none => (Except.error RunError.panicked, st)
    | some st2 =>
      match nextLevel r next_refs st2.checked_commits with
      | none => (Except.error RunError.findCommitErr, st2)
      | some refs2 =>
        if refs2.isEmpty then (Except.ok st2.pt.all_matches, st2)
        else bfsLoop s r fuel refs2 st2

/-- The starting reference (main.rs lines 211-215): the named branch when
given, `repo.head()` otherwise. -/
def startOid (r : Repo) (s : Settings) : Option Oid :=
  match s.branch with
  | some b => lookupRef r b
  | none => r.headRef

/-- `process_files_git` (main.rs lines 209-270): resolve the starting
reference (fatal on failure, before any traversal), peel it to a commit,
and run the breadth-first loop from it. -/
def processFilesGit (r : Repo) (s : Settings) (fuel : Nat) :
    Except RunError (List MatchEntry) × RunState :=
  match startOid r s with
  | none => (Except.error RunError.refErr, RunState.init)
  | some oid =>
    match findCommit r oid with
    | none => (Except.error RunError.peelErr, RunState.init)
    | some start => bfsLoop s r fuel [start] RunState.init

/- ------------------------------------------------------------------
Concrete fixtures used by the theorems below.
------------------------------------------------------------------ -/

/-- A blob whose single line contains the pattern `needle`. -/
def blobNeedle : Blob := { id := 100, binary := false, content := asciiB "needle\n" }

/-- A tree holding `a.rs` with the needle content. -/
def treeInner4 : Tree :=
  { id := 10, entries := [{ name := some "a.rs", oid := 100, kind := some ObjectType.blob }] }

/-- A root tree whose only entry is a directory named `target`, a member
of the default ignore set. -/
def treeRoot4 : Tree :=
  { id := 11, entries := [{ name := some "target", oid := 10, kind := some ObjectType.tree }] }

def commit4 : CommitObj := { id := 1, parentIds := [], treeId := some 11 }

/-- Single-commit repository whose only file lives inside an
ignored-name directory. -/
def repo4 : Repo :=
  { trees := [treeRoot4, treeInner4], blobs := [blobNeedle],
    commits := [commit4], refs := [], headRef := some 1 }

def settings4 : Settings := mkSettings (asciiB "needle") true

/-- Blob shared unchanged between the two commits of `repo7`. -/
def blobShared : Blob := { id := 200, binary := false, content := asciiB "needle\n" }

def blobV1 : Blob := { id := 201, binary := false, content := asciiB "v1\n" }

def blobV2 : Blob := { id := 202, binary := false, content := asciiB "v2\n" }

/-- Parent commit's tree: `f.rs` (with the pattern) and `g.rs` version 1. -/
def treeA7 : Tree :=
  { id := 20, entries :=
      [{ name := some "f.rs", oid := 200, kind := some ObjectType.blob },
       { name := some "g.rs", oid := 201, kind := some ObjectType.blob }] }

/-- Child commit's tree: same `f.rs`, changed `g.rs`. -/
def treeB7 : Tree :=
  { id := 21, entries :=
      [{ name := some "f.rs", oid := 200, kind := some ObjectType.blob },
       { name := some "g.rs", oid := 202, kind := some ObjectType.blob }] }

def commitA7 : CommitObj := { id := 1, parentIds := [], treeId := some 20 }

def commitB7 : CommitObj := { id := 2, parentIds := [1], treeId := some 21 }

/-- Two-commit linear history where only `g.rs` changed; head at the
child commit. -/
def repo7 : Repo :=
  { trees := [treeA7, treeB7], blobs := [blobShared, blobV1, blobV2],
    commits := [commitA7, commitB7], refs := [], headRef := some 2 }

/-- `once_file` disabled (`-o` on the command line): the only
deduplication toggle the program has. -/
def settings7 : Settings := mkSettings (asciiB "needle") false

def settings9 : Settings := mkSettings (asciiB "a") true

/-- A commit with an unresolvable root tree and a dangling parent id. -/
def commit5 : CommitObj := { id := 5, parentIds := [99], treeId := none }

def repo9 : Repo :=
  { trees := [], blobs := [], commits := [commit5], refs := [], headRef := some 5 }

/-- Empty repository with no named references. -/
def repo9b : Repo :=
  { trees := [], blobs := [], commits := [], refs := [], headRef := none }

/-- Settings naming a branch that does not resolve in `repo9b`. -/
def settingsB : Settings := { settings9 with branch := some "dev" }

def commit6 : CommitObj := { id := 6, parentIds := [7], treeId := none }

def commit7 : CommitObj := { id := 7, parentIds := [], treeId := none }

def repo9c : Repo :=
  { trees := [], blobs := [], commits := [commit6, commit7], refs := [],
    headRef := some 6 }

/-- Run state after the first level of `repo9`: commit 5 checked but
never visited (its tree does not resolve). -/
def runSt9 : RunState := { RunState.init with checked_commits := [(5, false)] }

/-- Walker state that has already visited tree id 11. -/
def st6 : PTState := { PTState.init with checked_trees := [11] }

/-- A blob entry named `f.rs` resolving to `blobNeedle` in `repo4`. -/
def e10 : TreeEntry := { name := some "f.rs", oid := 100, kind := some ObjectType.blob }

/-- Walker state that has already recorded the path `f.rs`. -/
def st10 : PTState := { PTState.init with checked_paths := [["f.rs"]] }

def s10 : Settings := mkSettings (asciiB "zzz") true

def s10n : Settings := mkSettings (asciiB "zzz") false

/-- The state produced by processing `e10` from the empty state with
path-dedup disabled: path recorded, blob scanned (no matches of `zzz`). -/
def st10c : PTState :=
  { PTState.init with checked_paths := [["f.rs"]], checked_blobs := [100],
                      scanLog := [100] }

/- ------------------------------------------------------------------
Invariants and monotonicity predicates.
------------------------------------------------------------------ -/

/-- Trace invariant of the walker state: the logs of expanded trees and
scanned blobs are duplicate-free, and every logged id has been recorded
in the corresponding checked set. -/
def PTInv (st : PTState) : Prop :=
  st.treeLog.Nodup ∧ (∀ x ∈ st.treeLog, x ∈ st.checked_trees) ∧
  st.scanLog.Nodup ∧ (∀ x ∈ st.scanLog, x ∈ st.checked_blobs)

/-- One walker step only grows the checked sets and preserves the trace
invariant. -/
def PTMono (a b : PTState) : Prop :=
  (∀ x, x ∈ a.checked_paths → x ∈ b.checked_paths) ∧
  (∀ x, x ∈ a.checked_blobs → x ∈ b.checked_blobs) ∧
  (∀ x, x ∈ a.checked_trees → x ∈ b.checked_trees) ∧
  (PTInv a → PTInv b)

/-- Trace invariant of the run state: no commit owns two walker
invocations, every visited commit is in `checked_commits`, and the walker
invariant holds. -/
def RunInv (st : RunState) : Prop :=
  st.visitLog.Nodup ∧
  (∀ x ∈ st.visitLog, mapContains st.checked_commits x = true) ∧
  PTInv st.pt

/-- One run step only grows the checked-commit map and preserves the run
invariant. -/
def RunMono (a b : RunState) : Prop :=
  (∀ x, mapContains a.checked_commits x = true →
    mapContains b.checked_commits x = true) ∧
  (RunInv a → RunInv b)

/- ------------------------------------------------------------------
Helper lemmas.
------------------------------------------------------------------ -/

theorem mem_hsInsert_self {α : Type} [DecidableEq α] (x : α) (l : List α) :
    x ∈ hsInsert x l := by
  unfold hsInsert
  split
  · assumption
  · exact List.mem_cons_self x l

theorem mem_hsInsert_of_mem {α : Type} [DecidableEq α] (y : α) {x : α}
    {l : List α} (h : x ∈ l) : x ∈ hsInsert y l := by
  unfold hsInsert
  split
  · exact h
  · exact List.mem_cons_of_mem y h

theorem mapContains_mapInsert (m : List (Oid × Bool)) (k x : Oid) (v : Bool)
    (h : mapContains m x = true) : mapContains (mapInsert m k v) x = true := by
  unfold mapInsert
  split
  · exact h
  · simp only [mapContains, List.any_cons, Bool.or_eq_true]
    exact Or.inr h

theorem mapContains_mapInsert_self (m : List (Oid × Bool)) (k : Oid) (v : Bool) :
    mapContains (mapInsert m k v) k = true := by
  unfold mapInsert
  split
  · assumption
  · simp [mapContains]

theorem mapContains_mapSet (m : List (Oid × Bool)) (k x : Oid) (v : Bool) :
    mapContains (mapSet m k v) x = mapContains m x := by
  unfold mapContains mapSet
  induction m with
  | nil => rfl
  | cons p rest ih =>
    simp only [List.map_cons, List.any_cons, ih]
    by_cases hp : p.1 = k
    · simp [hp]
    · simp [hp]

theorem ptMono_refl (st : PTState) : PTMono st st :=
  ⟨fun _ h => h, fun _ h => h, fun _ h => h, fun h => h⟩

theorem ptMono_trans {a b c : PTState} (h1 : PTMono a b) (h2 : PTMono b c) :
    PTMono a c :=
  ⟨fun x hx => h2.1 x (h1.1 x hx), fun x hx => h2.2.1 x (h1.2.1 x hx),
   fun x hx => h2.2.2.1 x (h1.2.2.1 x hx), fun hi => h2.2.2.2 (h1.2.2.2 hi)⟩

theorem ptMono_markPath (p : GPath) (st : PTState) : PTMono st (markPath p st) :=
  ⟨fun _ hx => mem_hsInsert_of_mem _ hx, fun _ hx => hx, fun _ hx => hx,
   fun hi => hi⟩

theorem scanBlobStep_mono {s : Settings} {cid : Oid} {p : GPath} {blob : Blob}
    {st : PTState} {v : Bool} {st2 : PTState} {v2 : Bool}
    (h : scanBlobStep s cid p blob st v = some (st2, v2)) : PTMono st st2 := by
  unfold scanBlobStep at h
  by_cases hb : blob.id ∈ st.checked_blobs
  · rw [if_pos hb] at h
    simp only [Option.some.injEq, Prod.mk.injEq] at h
    obtain ⟨h1, _⟩ := h
    subst h1
    exact ⟨fun _ hx => hx, fun _ hx => hx, fun _ hx => hx, fun hi => hi⟩
  · rw [if_neg hb] at h
    cases hpf : processFile s cid blob.content p v with
    | none => rw [hpf] at h; cases h
    | some tup =>
      obtain ⟨ms, out, v3⟩ := tup
      rw [hpf] at h
      simp only [Option.some.injEq, Prod.mk.injEq] at h
      obtain ⟨h1, _⟩ := h
      subst h1
      refine ⟨fun _ hx => hx, fun _ hx => mem_hsInsert_of_mem _ hx,
        fun _ hx => hx, ?_⟩
      rintro ⟨tnd, tsub, snd, ssub⟩
      refine ⟨tnd, tsub, ?_, ?_⟩
      · exact List.nodup_cons.mpr ⟨fun hmem => hb (ssub _ hmem), snd⟩
      · intro x hx
        rcases List.mem_cons.mp hx with hx1 | hx2
        · subst hx1; exact mem_hsInsert_self _ _
        · exact mem_hsInsert_of_mem _ (ssub _ hx2)

theorem entryStep_mono {s : Settings} {r : Repo}
    {rec : Tree → Oid → GPath → PTState → Bool → Option (PTState × Bool)}
    (hrec : ∀ t cid p st v st2 v2,
      rec t cid p st v = some (st2, v2) → PTMono st st2)
    {e : TreeEntry} {cid : Oid} {path : GPath} {st : PTState} {v : Bool}
    {st2 : PTState} {v2 : Bool}
    (h : entryStep s r rec e cid path st v = some (st2, v2)) : PTMono st st2 := by
  unfold entryStep at h
  split at h
  · simp only [Option.some.injEq, Prod.mk.injEq] at h
    obtain ⟨h1, _⟩ := h
    subst h1
    exact ptMono_refl st
  · split at h
    · simp only [Option.some.injEq, Prod.mk.injEq] at h
      obtain ⟨h1, _⟩ := h
      subst h1
      exact ptMono_refl st
    · split at h
      · simp only [Option.some.injEq, Prod.mk.injEq] at h
        obtain ⟨h1, _⟩ := h
        subst h1
        exact ptMono_markPath _ st
      · exact ptMono_trans (ptMono_markPath _ st) (hrec _ _ _ _ _ _ _ h)
      · split at h
        · simp only [Option.some.injEq, Prod.mk.injEq] at h
          obtain ⟨h1, _⟩ := h
          subst h1
          exact ptMono_markPath _ st
        · exact ptMono_trans (ptMono_markPath _ st) (scanBlobStep_mono h)

theorem goEntries_mono {s : Settings} {r : Repo}
    {rec : Tree → Oid → GPath → PTState → Bool → Option (PTState × Bool)}
    (hrec : ∀ t cid p st v st2 v2,
      rec t cid p st v = some (st2, v2) → PTMono st st2) :
    ∀ (es : List TreeEntry) (cid : Oid) (path : GPath) (st : PTState) (v : Bool)
      (st2 : PTState) (v2 : Bool),
      goEntries s r rec es cid path st v = some (st2, v2) → PTMono st st2 := by
  intro es
  induction es with
  | nil =>
    intro cid path st v st2 v2 h
    simp only [goEntries, Option.some.injEq, Prod.mk.injEq] at h
    obtain ⟨h1, _⟩ := h
    subst h1
    exact ptMono_refl st
  | cons e rest ih =>
    intro cid path st v st2 v2 h
    rw [goEntries] at h
    cases hstep : entryStep s r rec e cid path st v with
    | none => rw [hstep] at h; cases h
    | some pr =>
      obtain ⟨stm, vm⟩ := pr
      rw [hstep] at h
      exact ptMono_trans (entryStep_mono hrec hstep) (ih cid path stm vm st2 v2 h)

theorem process_mono {s : Settings} {r : Repo} :
    ∀ (fuel : Nat) (t : Tree) (cid : Oid) (path : GPath) (st : PTState)
      (v : Bool) (st2 : PTState) (v2 : Bool),
      process s r fuel t cid path st v = some (st2, v2) → PTMono st st2 := by
  intro fuel
  induction fuel with
  | zero =>
    intro t cid path st v st2 v2 h
    simp only [process, Option.some.injEq, Prod.mk.injEq] at h
    obtain ⟨h1, _⟩ := h
    subst h1
    exact ptMono_refl st
  | succ n ih =>
    intro t cid path st v st2 v2 h
    rw [process] at h
    by_cases hg : t.id ∈ st.checked_trees
    · rw [if_pos hg] at h
      simp only [Option.some.injEq, Prod.mk.injEq] at h
      obtain ⟨h1, _⟩ := h
      subst h1
      exact ptMono_refl st
    · rw [if_neg hg] at h
      have hmark : PTMono st (markTree t.id st) := by
        refine ⟨fun _ hx => hx, fun _ hx => hx,
          fun _ hx => mem_hsInsert_of_mem _ hx, ?_⟩
        rintro ⟨tnd, tsub, snd, ssub⟩
        refine ⟨List.nodup_cons.mpr ⟨fun hmem => hg (tsub _ hmem), tnd⟩, ?_, snd, ssub⟩
        intro x hx
        rcases List.mem_cons.mp hx with hx1 | hx2
        · subst hx1; exact mem_hsInsert_self _ _
        · exact mem_hsInsert_of_mem _ (tsub _ hx2)
      exact ptMono_trans hmark
        (goEntries_mono (fun t3 c3 p3 s3 v3 s4 v4 => ih t3 c3 p3 s3 v3 s4 v4)
          t.entries cid path (markTree t.id st) v st2 v2 h)

theorem runMono_refl (st : RunState) : RunMono st st :=
  ⟨fun _ h => h, fun h => h⟩

theorem runMono_trans {a b c : RunState} (h1 : RunMono a b) (h2 : RunMono b c) :
    RunMono a c :=
  ⟨fun x hx => h2.1 x (h1.1 x hx), fun hi => h2.2 (h1.2 hi)⟩

theorem visitCommitStep_mono {s : Settings} {r : Repo} {fuel : Nat}
    {st : RunState} {c : CommitObj} {st2 : RunState}
    (h : visitCommitStep s r fuel st c = some st2) : RunMono st st2 := by
  unfold visitCommitStep at h
  split at h
  · simp only [Option.some.injEq] at h
    subst h
    exact runMono_refl st
  · rename_i hcont
    cases htree : commitTree r c with
    | none =>
      rw [htree] at h
      simp only [Option.some.injEq] at h
      subst h
      refine ⟨fun x hx => mapContains_mapInsert _ _ _ _ hx, ?_⟩
      rintro ⟨vnd, vsub, pinv⟩
      exact ⟨vnd, fun x hx => mapContains_mapInsert _ _ _ _ (vsub x hx), pinv⟩
    | some tree =>
      rw [htree] at h
      simp only [] at h
      cases hproc : process s r fuel tree c.id [] st.pt false with
      | none => rw [hproc] at h; exact Option.noConfusion h
      | some pr =>
        obtain ⟨pt2, v2⟩ := pr
        rw [hproc] at h
        simp only [Option.some.injEq] at h
        subst h
        refine ⟨?_, ?_⟩
        · intro x hx
          rw [mapContains_mapSet]
          exact mapContains_mapInsert _ _ _ _ hx
        · rintro ⟨vnd, vsub, pinv⟩
          refine ⟨?_, ?_, ?_⟩
          · refine List.nodup_cons.mpr ⟨?_, vnd⟩
            intro hmem
            exact hcont (vsub _ hmem)
          · intro x hx
            rcases List.mem_cons.mp hx with hx1 | hx2
            · subst hx1
              rw [mapContains_mapSet]
              exact mapContains_mapInsert_self _ _ _
            · rw [mapContains_mapSet]
              exact mapContains_mapInsert _ _ _ _ (vsub x hx2)
          · exact (process_mono fuel tree c.id [] st.pt false pt2 v2 hproc).2.2.2 pinv

theorem visitLevel_mono {s : Settings} {r : Repo} {fuel : Nat} :
    ∀ (cs : List CommitObj) (st st2 : RunState),
      visitLevel s r fuel cs st = some st2 → RunMono st st2 := by
  intro cs
  induction cs with
  | nil =>
    intro st st2 h
    simp only [visitLevel, Option.some.injEq] at h
    subst h
    exact runMono_refl st
  | cons c rest ih =>
    intro st st2 h
    rw [visitLevel] at h
    cases hstep : visitCommitStep s r fuel st c with
    | none => rw [hstep] at h; exact Option.noConfusion h
    | some stm =>
      rw [hstep] at h
      exact runMono_trans (visitCommitStep_mono hstep) (ih stm st2 h)

theorem bfsLoop_inv {s : Settings} {r : Repo} :
    ∀ (fuel : Nat) (refs : List CommitObj) (st : RunState),
      RunInv st → RunInv (bfsLoop s r fuel refs st).2 := by
  intro fuel
  induction fuel with
  | zero => intro refs st h; exact h
  | succ n ih =>
    intro refs st h
    rw [bfsLoop]
    split
    · exact h
    · rename_i st2 hlv
      have h2 : RunInv st2 := (visitLevel_mono refs st st2 hlv).2 h
      split
      · exact h2
      · rename_i refs2 hnl
        split
        · exact h2
        · exact ih refs2 st2 h2

theorem runInit_inv : RunInv RunState.init := by
  refine ⟨List.nodup_nil, ?_, List.nodup_nil, ?_, List.nodup_nil, ?_⟩
  · intro x hx
    exact absurd hx (List.not_mem_nil x)
  · intro x hx
    exact absurd hx (List.not_mem_nil x)
  · intro x hx
    exact absurd hx (List.not_mem_nil x)

theorem run_inv (r : Repo) (s : Settings) (fuel : Nat) :
    RunInv (processFilesGit r s fuel).2 := by
  unfold processFilesGit
  split
  · exact runInit_inv
  · split
    · exact runInit_inv
    · rename_i start _
      exact bfsLoop_inv fuel [start] RunState.init runInit_inv

theorem collectCommits_mem {r : Repo} :
    ∀ (ids : List Oid) (l : List CommitObj) (p : Oid) (cp : CommitObj),
      collectCommits r ids = some l → p ∈ ids → findCommit r p = some cp →
      cp ∈ l := by
  intro ids
  induction ids with
  | nil =>
    intro l p cp _ hp _
    exact absurd hp (List.not_mem_nil p)
  | cons i rest ih =>
    intro l p cp h hp hf
    rw [collectCommits] at h
    cases hfi : findCommit r i with
    | none => rw [hfi] at h; exact Option.noConfusion h
    | some ci =>
      rw [hfi] at h
      cases hcr : collectCommits r rest with
      | none => rw [hcr] at h; exact Option.noConfusion h
      | some cs =>
        rw [hcr] at h
        simp only [Option.some.injEq] at h
        subst h
        rcases List.mem_cons.mp hp with hp1 | hp2
        · rw [hp1] at hf
          rw [hfi] at hf
          simp only [Option.some.injEq] at hf
          subst hf
          exact List.mem_cons_self ci cs
        · exact List.mem_cons_of_mem ci (ih cs p cp hcr hp2 hf)

/- ------------------------------------------------------------------
Claim theorems.
------------------------------------------------------------------ -/

/-- C1: the claim says every reported line number equals the count of
newline bytes strictly preceding the match start, plus one.  The code
violates it: for the file "needle" followed by a newline, with the match
at bytes 0 to 6, the spec formula gives line 1, but `processFile` prints
line number 2 (and a truncated line text), because the loop in
`process_file` increments `line_number` for the newline at index 6 —
which lies at or after the match end — before breaking. -/
theorem c1_line_number_mismatch :
    processFile (mkSettings (asciiB "needle") true) 7 (asciiB "needle\n")
        ["f.rs"] false
      = some ([{ commit := 7, path := ["f.rs"], start := 0, end_ := 6 }],
              [OutItem.matchLine (some 7) ["f.rs"] 2 (asciiB "needl")], false)
    ∧ specLineNumber (asciiB "needle\n") 0 = 1 := ⟨rfl, rfl⟩

/-- C2: the claim says the line-span computation never panics and always
produces `line_start <= line_end`.  The code violates it: for the file
"a", newline, "b" and the match "b" at bytes 2 to 3 (a match on a final
line that has no trailing newline), the loop leaves `line_number = 2`,
`line_start = 2` and `line_end = 0`, and the slice
`input_str[line_start..line_end]` panics (modeled by `processFile`
returning `none`). -/
theorem c2_line_span_panic :
    lineInfo (asciiB "a\nb") 2 3 = (2, 2, 0)
    ∧ processFile (mkSettings (asciiB "b") true) 7 (asciiB "a\nb")
        ["f.rs"] false = none := ⟨rfl, rfl⟩

/-- C3: the claim says a single-line file containing the pattern once
yields one match record with line number 1 and the full line as text.
The code produces exactly one record, but prints line number 2 and drops
the final character of the line: for "the needle here" plus a newline
with the match at bytes 4 to 10, the spec-side span is the whole line,
while the code prints text ending at `line_end = 14` (the newline index
minus one) instead of 15. -/
theorem c3_single_line_round_trip_mismatch :
    processFile (mkSettings (asciiB "needle") true) 7
        (asciiB "the needle here\n") ["f.rs"] false
      = some ([{ commit := 7, path := ["f.rs"], start := 4, end_ := 10 }],
              [OutItem.matchLine (some 7) ["f.rs"] 2 (asciiB "the needle her")],
              false)
    ∧ specLineNumber (asciiB "the needle here\n") 4 = 1
    ∧ specLineText (asciiB "the needle here\n") 4 10 = asciiB "the needle here"
    ∧ asciiB "the needle her" ≠ asciiB "the needle here" :=
  ⟨rfl, rfl, rfl, by decide⟩

/-- C4: the claim says no file inside a directory whose name is in the
ignore set is ever scanned or reported.  The code violates it: in `repo4`
the only file lives inside a directory named "target", a member of the
default ignore set, yet the run reports the match, because
`ProcessTree::process` recurses into tree entries before the
`ignore_dirs` check (which is only reached by blob entries). -/
theorem c4_ignored_dir_descended :
    "target" ∈ settings4.ignore_dirs
    ∧ (processFilesGit repo4 settings4 3).1
        = Except.ok [{ commit := 1, path := ["target", "a.rs"], start := 0, end_ := 6 }] :=
  ⟨by decide, rfl⟩

/-- C5: in every run, each commit id owns at most one Snapshot Walker
invocation: the log of owning commits of `process` calls made by
`processFilesGit` is duplicate-free, for every repository, settings and
fuel. -/
theorem c5_commit_visited_once (r : Repo) (s : Settings) (fuel : Nat) :
    ((processFilesGit r s fuel).2).visitLog.Nodup :=
  (run_inv r s fuel).1

/-- C6: a tree whose id is already in `checked_trees` is never descended
again — `process` returns immediately with the state unchanged — and,
run-wide, the log of expanded trees is duplicate-free, so each distinct
tree id is expanded at most once per run. -/
theorem c6_tree_visited_once :
    (∀ (s : Settings) (r : Repo) (fuel : Nat) (t : Tree) (cid : Oid)
        (path : GPath) (st : PTState) (v : Bool),
        t.id ∈ st.checked_trees →
        process s r fuel t cid path st v = some (st, v))
    ∧ ∀ (r : Repo) (s : Settings) (fuel : Nat),
        ((processFilesGit r s fuel).2).pt.treeLog.Nodup := by
  constructor
  · intro s r fuel t cid path st v h
    cases fuel with
    | zero => rfl
    | succ n => rw [process, if_pos h]
  · intro r s fuel
    exact (run_inv r s fuel).2.2.1

theorem c6_tree_visited_once_witness :
    process s10 repo4 1 treeRoot4 1 [] st6 false = some (st6, false) :=
  c6_tree_visited_once.1 s10 repo4 1 treeRoot4 1 [] st6 false (by decide)

/-- C7 counterexample: the claim says disabling the content-dedup toggle
makes the run report matches once per (path, commit) occurrence.  But the
program has no content-dedup toggle; with the only dedup toggle it has
(`once_file`, i.e. path dedup) disabled, the two-commit fixture `repo7`
— where both commits contain the same matching blob at "f.rs", so there
are two (path, commit) occurrences — still yields exactly one match, the
second occurrence being counted as a skipped blob. -/
theorem c7_toggle_counterexample :
    settings7.once_file = false
    ∧ (processFilesGit repo7 settings7 3).1
        = Except.ok [{ commit := 2, path := ["f.rs"], start := 0, end_ := 6 }]
    ∧ (processFilesGit repo7 settings7 3).2.pt.skipped_blobs = 1
    ∧ [({ commit := 2, path := ["f.rs"], start := 0, end_ := 6 } : MatchEntry)].length ≠ 2 :=
  ⟨rfl, rfl, rfl, by decide⟩

/-- C7 (amended): content dedup is unconditional — in every run, under
every settings value (in particular with the `once_file` toggle
disabled), no content id is ever handed to `process_file` twice: the scan
log is duplicate-free. -/
theorem c7_content_dedup_unconditional (r : Repo) (s : Settings) (fuel : Nat) :
    ((processFilesGit r s fuel).2).pt.scanLog.Nodup :=
  (run_inv r s fuel).2.2.2.2.1

/-- C8: a file whose bytes are not valid UTF-8 contributes nothing:
`processFile` returns the empty match list, prints nothing, leaves the
group flag unchanged, and does not panic or abort. -/
theorem c8_invalid_utf8_rejected (s : Settings) (cid : Oid) (input : List Nat)
    (p : GPath) (v : Bool) (h : validUtf8 input = false) :
    processFile s cid input p v = some ([], [], v) := by
  unfold processFile
  rw [h]
  simp

theorem c8_invalid_utf8_rejected_witness :
    validUtf8 [255] = false
    ∧ processFile s10 1 [255] ["f.rs"] false = some ([], [], false) :=
  ⟨by decide, c8_invalid_utf8_rejected s10 1 [255] ["f.rs"] false (by decide)⟩

/-- C9: the error policy of `process_files_git`: (1) a branch name that
fails to resolve yields a fatal error with the initial (untraversed) run
state; (2) a failure to load a commit while enumerating a frontier's
parent ids makes the loop return a fatal error; (3) a commit whose root
tree does not resolve is recorded as checked and silently skipped (no
walker invocation, no error); (4) parent enumeration is independent of
tree resolution: every unchecked parent of any frontier commit that loads
successfully appears in the next frontier. -/
theorem c9_error_policy :
    (∀ (r : Repo) (s : Settings) (fuel : Nat) (b : String),
        s.branch = some b → lookupRef r b = none →
        processFilesGit r s fuel = (Except.error RunError.refErr, RunState.init)) ∧
    (∀ (s : Settings) (r : Repo) (fuel : Nat) (refs : List CommitObj)
        (st st2 : RunState),
        visitLevel s r (treeFuel r) refs st = some st2 →
        nextLevel r refs st2.checked_commits = none →
        bfsLoop s r (fuel + 1) refs st = (Except.error RunError.findCommitErr, st2)) ∧
    (∀ (s : Settings) (r : Repo) (fuel : Nat) (st : RunState) (c : CommitObj),
        mapContains st.checked_commits c.id = false → commitTree r c = none →
        visitCommitStep s r fuel st c =
          some { st with checked_commits := mapInsert st.checked_commits c.id false }) ∧
    (∀ (r : Repo) (refs : List CommitObj) (cc : List (Oid × Bool))
        (l : List CommitObj) (c : CommitObj) (p : Oid) (cp : CommitObj),
        nextLevel r refs cc = some l → c ∈ refs → p ∈ c.parentIds →
        mapContains cc p = false → findCommit r p = some cp → cp ∈ l) := by
  refine ⟨?_, ?_, ?_, ?_⟩
  · intro r s fuel b hb hr
    have hso : startOid r s = none := by
      unfold startOid
      rw [hb]
      exact hr
    unfold processFilesGit
    rw [hso]
  · intro s r fuel refs st st2 h1 h2
    rw [bfsLoop, h1]
    simp only []
    rw [h2]
  · intro s r fuel st c h1 h2
    unfold visitCommitStep
    rw [h1]
    simp only [Bool.false_eq_true, if_false]
    rw [h2]
  · intro r refs cc l c p cp hnl hc hp hcc hf
    unfold nextLevel at hnl
    refine collectCommits_mem _ l p cp hnl ?_ hf
    simp only [List.mem_filter, List.mem_flatten]
    refine ⟨⟨c.parentIds, List.mem_map_of_mem (fun c => c.parentIds) hc, hp⟩, ?_⟩
    rw [hcc]
    rfl

theorem c9_error_policy_witness :
    processFilesGit repo9b settingsB 3 = (Except.error RunError.refErr, RunState.init)
    ∧ bfsLoop settings9 repo9 1 [commit5] RunState.init
        = (Except.error RunError.findCommitErr, runSt9)
    ∧ visitCommitStep settings9 repo9 1 RunState.init commit5
        = some { RunState.init with
                 checked_commits := mapInsert RunState.init.checked_commits commit5.id false }
    ∧ commit7 ∈ [commit7] :=
  ⟨c9_error_policy.1 repo9b settingsB 3 "dev" rfl rfl,
   c9_error_policy.2.1 settings9 repo9 0 [commit5] RunState.init runSt9 rfl rfl,
   c9_error_policy.2.2.1 settings9 repo9 1 RunState.init commit5 rfl rfl,
   c9_error_policy.2.2.2 repo9c [commit6] [] [commit7] commit6 7 commit7 rfl
     (by decide) (by decide) rfl rfl⟩

/-- C10: the visited-paths check precedes the entry's kind examination:
with `once_file` enabled, any named entry (directory or file, whatever
its content) whose joined path is already recorded is skipped with the
state completely unchanged; and whenever a named entry is processed past
that check — with `once_file` enabled or not — its path ends up in
`checked_paths`. -/
theorem c10_path_bookkeeping :
    (∀ (s : Settings) (r : Repo) (fuel : Nat) (e : TreeEntry) (cid : Oid)
        (path : GPath) (st : PTState) (v : Bool) (name : String),
        e.name = some name →
        s.once_file = true → path ++ [name] ∈ st.checked_paths →
        entryStep s r (process s r fuel) e cid path st v = some (st, v)) ∧
    (∀ (s : Settings) (r : Repo) (fuel : Nat) (e : TreeEntry) (cid : Oid)
        (path : GPath) (st : PTState) (v : Bool) (name : String)
        (st2 : PTState) (v2 : Bool),
        e.name = some name →
        ¬(s.once_file = true ∧ path ++ [name] ∈ st.checked_paths) →
        entryStep s r (process s r fuel) e cid path st v = some (st2, v2) →
        path ++ [name] ∈ st2.checked_paths) := by
  constructor
  · intro s r fuel e cid path st v name hn h1 h2
    unfold entryStep
    rw [hn]
    simp only []
    rw [if_pos ⟨h1, h2⟩]
  · intro s r fuel e cid path st v name st2 v2 hn hskip h
    unfold entryStep at h
    rw [hn] at h
    simp only [] at h
    rw [if_neg hskip] at h
    have hmem : path ++ [name] ∈ (markPath (path ++ [name]) st).checked_paths :=
      mem_hsInsert_self _ _
    cases ho : entryToObject r e with
    | none =>
      rw [ho] at h
      simp only [Option.some.injEq, Prod.mk.injEq] at h
      obtain ⟨h3, _⟩ := h
      subst h3
      exact hmem
    | some obj =>
      rw [ho] at h
      cases obj with
      | treeObj t =>
        simp only [] at h
        exact (process_mono fuel t cid (path ++ [name])
          (markPath (path ++ [name]) st) v st2 v2 h).1 _ hmem
      | blobObj b =>
        simp only [] at h
        cases hcl : classifyBlob s name e (Obj.blobObj b) with
        | none =>
          rw [hcl] at h
          simp only [Option.some.injEq, Prod.mk.injEq] at h
          obtain ⟨h3, _⟩ := h
          subst h3
          exact hmem
        | some blob =>
          rw [hcl] at h
          exact (scanBlobStep_mono h).1 _ hmem

theorem c10_path_bookkeeping_witness :
    entryStep s10 repo4 (process s10 repo4 1) e10 1 [] st10 false = some (st10, false)
    ∧ ["f.rs"] ∈ st10c.checked_paths :=
  ⟨c10_path_bookkeeping.1 s10 repo4 1 e10 1 [] st10 false "f.rs" rfl rfl (by decide),
   c10_path_bookkeeping.2 s10n repo4 1 e10 1 [] PTState.init false "f.rs" st10c false
     rfl (by decide) rfl⟩

end Gitgrep
